import Mathlib

/-!
Verification of the diagnostic-message synthesizer in
`src/dioptra/task_engine/error_message.py`.

The Python module is shallowly embedded: JSON values become the inductive
`JSON`, paths become lists of `Tok`, Python exceptions become the `PyErr`
error type of `Except`, and the unbounded recursion of
`_extract_schema_by_schema_path` (which can diverge on reference cycles) is
given an explicit fuel parameter; running out of fuel is the distinguished
error `PyErr.fuel`, which cannot occur for any run the Python code completes.
-/

/-- A path token, as used in jsonschema paths: a mapping key or a sequence
index.  Mirrors `Union[int, str]` in the source. -/
inductive Tok where
  | str (s : String)
  | int (i : Int)
deriving DecidableEq, Repr

/-- A JSON value: the data model for schema documents and instance
fragments. -/
inductive JSON where
  | null
  | bool (b : Bool)
  | num (n : Int)
  | str (s : String)
  | arr (elts : List JSON)
  | obj (fields : List (String × JSON))
deriving Repr

/-- Python exceptions that the embedded code can raise, plus the artificial
`fuel` marker for runs longer than the given fuel. -/
inductive PyErr where
  | fuel
  | keyError
  | indexError
  | typeError
  | valueError
  | attributeError
  | assertionError
deriving DecidableEq, Repr

/-- Lookup of a string key in a JSON object's field list (Python `dict`
access by key). -/
def lookupField (fields : List (String × JSON)) (k : String) : Option JSON :=
  (fields.find? (fun p => p.1 == k)).map (fun p => p.2)

/-- Python list indexing semantics: nonnegative indices from the front,
negative indices wrap from the back, anything else is out of range. -/
def pyListGet? {α : Type} (xs : List α) (i : Int) : Option α :=
  if 0 ≤ i then xs.get? i.toNat
  else if (-i).toNat ≤ xs.length then xs.get? (xs.length - (-i).toNat)
  else none

/-- Python `str[int]` indexing: a one-character string, with negative wrap. -/
def pyStrGet? (s : String) (i : Int) : Option String :=
  (pyListGet? s.data i).map (fun c => String.mk [c])

/-- Split a list of characters at `'/'`, Python `str.split("/")` semantics:
the empty string yields `[""]` and adjacent separators yield empty
segments. -/
def splitSlashAux : List Char → List Char → List String
  | [], acc => [String.mk acc.reverse]
  | c :: cs, acc =>
    if c = '/' then String.mk acc.reverse :: splitSlashAux cs []
    else splitSlashAux cs (c :: acc)

/-- Python `s.split("/")`. -/
def splitSlash (s : String) : List String :=
  splitSlashAux s.data []

/-- `_schema_reference_to_path`: `"#"` denotes the whole document (empty
path); otherwise the first two characters (`"#/"`) are stripped and the rest
is split at `'/'`. -/
def refToPath (r : String) : List String :=
  if r = "#" then []
  else splitSlash (String.mk (r.data.drop 2))

/-- A reference fragment is well formed when the path it denotes has no
empty segment (an empty segment is falsy in Python and triggers the
early-return in `_extract_schema_by_schema_path`). -/
def goodRef (r : String) : Bool :=
  (refToPath r).all (fun s => !(s == ""))

/-- Python truthiness of a path token: `not tok` is true exactly for the
integer `0` and the empty string. -/
def tokFalsy : Tok → Bool
  | .str s => s == ""
  | .int i => i == 0

/-- Parse the digits of a decimal literal. -/
def digitsToNat? (cs : List Char) : Option Nat :=
  if cs.isEmpty then none
  else
    cs.foldl
      (fun acc c =>
        match acc with
        | none => none
        | some n => if c.isDigit then some (n * 10 + (c.toNat - '0'.toNat)) else none)
      (some 0)

/-- Python `int(s)` on a decimal string with an optional sign. -/
def strToInt? (s : String) : Option Int :=
  match s.data with
  | '-' :: rest => (digitsToNat? rest).map (fun n => -(n : Int))
  | '+' :: rest => (digitsToNat? rest).map (fun n => (n : Int))
  | cs => (digitsToNat? cs).map (fun n => (n : Int))

/-- `int(next_path_component)` in the sequence branch of the resolver: an
integer token is kept, a string token is parsed as a decimal integer. -/
def tokToInt? : Tok → Option Int
  | .int i => some i
  | .str s => strToInt? s

/-- The `$ref` value of a node, when the node is a mapping containing the
key `"$ref"` (`isinstance(schema, dict) and "$ref" in schema`). -/
def refOf : JSON → Option JSON
  | .obj fields => lookupField fields "$ref"
  | _ => none

/-- One indexing step `schema[next_path_component]` of the resolver,
including the list-branch integer coercion and the Python exception each
shape raises. -/
def lookupChild (node : JSON) (tok : Tok) : Except PyErr JSON :=
  match node with
  | .arr elts =>
    match tokToInt? tok with
    | some i =>
      match pyListGet? elts i with
      | some c => .ok c
      | none => .error .indexError
    | none => .error .valueError
  | .obj fields =>
    match tok with
    | .str k =>
      match lookupField fields k with
      | some c => .ok c
      | none => .error .keyError
    | .int _ => .error .keyError
  | .str s =>
    match tok with
    | .int i =>
      match pyStrGet? s i with
      | some c => .ok (.str c)
      | none => .error .indexError
    | .str _ => .error .typeError
  | _ => .error .typeError

/-- `_extract_schema_by_schema_path(schema_path, full_schema, schema)`.

A reference node restarts traversal from the document root with the
reference's path prepended; otherwise, when `not next_path_component`
(the path is exhausted, or its next token is falsy — `0` or `""`), the
current node is returned; otherwise one indexing step is taken and the
traversal recurses.  `fuel` bounds the recursion depth. -/
def extract : Nat → List Tok → JSON → JSON → Except PyErr JSON
  | 0, _, _, _ => .error .fuel
  | n + 1, path, full, node =>
    match refOf node with
    | some (.str r) => extract n ((refToPath r).map Tok.str ++ path) full full
    | some _ => .error .typeError
    | none =>
      match path with
      | [] => .ok node
      | tok :: rest =>
        if tokFalsy tok then .ok node
        else
          match lookupChild node tok with
          | .ok child => extract n rest full child
          | .error e => .error e

/-- The node `{"$ref": r}`. -/
def refNode (r : String) : JSON :=
  .obj [("$ref", .str r)]


def refValOk (fields : List (String × JSON)) : Bool :=
  match lookupField fields "$ref" with
  | some (.str r) => goodRef r
  | some _ => false
  | none => true

mutual

def goodRefsJ : JSON → Bool
  | .null => true
  | .bool _ => true
  | .num _ => true
  | .str _ => true
  | .arr elts => goodRefsList elts
  | .obj fields => refValOk fields && goodRefsFields fields

def goodRefsList : List JSON → Bool
  | [] => true
  | e :: es => goodRefsJ e && goodRefsList es

def goodRefsFields : List (String × JSON) → Bool
  | [] => true
  | (_, v) :: fs => goodRefsJ v && goodRefsFields fs

end

theorem goodRefsList_mem {es : List JSON} {e : JSON}
    (h : goodRefsList es = true) (hm : e ∈ es) : goodRefsJ e = true := by
  induction es with
  | nil => cases hm
  | cons a as ih =>
    rw [goodRefsList, Bool.and_eq_true] at h
    rcases List.mem_cons.1 hm with rfl | hm'
    · exact h.1
    · exact ih h.2 hm'

theorem goodRefsFields_mem {fs : List (String × JSON)} {p : String × JSON}
    (h : goodRefsFields fs = true) (hm : p ∈ fs) : goodRefsJ p.2 = true := by
  induction fs with
  | nil => cases hm
  | cons a as ih =>
    obtain ⟨s, v⟩ := a
    rw [goodRefsFields, Bool.and_eq_true] at h
    rcases List.mem_cons.1 hm with rfl | hm'
    · exact h.1
    · exact ih h.2 hm'

theorem goodRefs_ref {node rv : JSON} (h : goodRefsJ node = true)
    (href : refOf node = some rv) : ∃ r, rv = JSON.str r ∧ goodRef r = true := by
  cases node with
  | obj fields =>
    rw [goodRefsJ, Bool.and_eq_true] at h
    have hok : refValOk fields = true := h.1
    rw [refValOk] at hok
    rw [refOf] at href
    rw [href] at hok
    cases rv with
    | str r => exact ⟨r, rfl, hok⟩
    | null => simp at hok
    | bool b => simp at hok
    | num n => simp at hok
    | arr es => simp at hok
    | obj fs => simp at hok
  | null => simp [refOf] at href
  | bool b => simp [refOf] at href
  | num n => simp [refOf] at href
  | str s => simp [refOf] at href
  | arr es => simp [refOf] at href

theorem lookupField_mem {fields : List (String × JSON)} {k : String} {v : JSON}
    (h : lookupField fields k = some v) : ∃ p ∈ fields, p.2 = v := by
  rw [lookupField] at h
  rcases hf : fields.find? (fun p => p.1 == k) with _ | p
  · rw [hf] at h; simp at h
  · rw [hf] at h
    simp only [Option.map_some'] at h
    exact ⟨p, List.mem_of_find?_eq_some hf, Option.some.inj h⟩

theorem pyListGet?_mem {α : Type} {xs : List α} {i : Int} {c : α}
    (h : pyListGet? xs i = some c) : c ∈ xs := by
  rw [pyListGet?] at h
  split at h
  · exact List.get?_mem h
  · split at h
    · exact List.get?_mem h
    · cases h

theorem goodRefs_child {node child : JSON} {tok : Tok} (h : goodRefsJ node = true)
    (hc : lookupChild node tok = .ok child) : goodRefsJ child = true := by
  unfold lookupChild at hc
  split at hc
  · -- arr
    rename_i elts
    split at hc
    · split at hc
      · rename_i i c hg
        cases hc
        exact goodRefsList_mem (by rwa [goodRefsJ] at h) (pyListGet?_mem hg)
      · cases hc
    · cases hc
  · -- obj
    rename_i fields
    split at hc
    · rename_i k
      split at hc
      · rename_i c hl
        cases hc
        obtain ⟨p, hp, rfl⟩ := lookupField_mem hl
        rw [goodRefsJ, Bool.and_eq_true] at h
        exact goodRefsFields_mem h.2 hp
      · cases hc
    · cases hc
  · -- str
    rename_i s
    split at hc
    · split at hc
      · rename_i i c hg
        cases hc
        simp [goodRefsJ]
      · cases hc
    · cases hc
  · cases hc

theorem goodRef_tokens {r : String} (h : goodRef r = true) :
    ∀ s ∈ refToPath r, s ≠ "" := by
  intro s hs
  rw [goodRef] at h
  have := List.all_eq_true.1 h s hs
  simpa using this

theorem extract_succ (n : Nat) (path : List Tok) (full node : JSON) :
    extract (n + 1) path full node =
      match refOf node with
      | some (.str r) => extract n ((refToPath r).map Tok.str ++ path) full full
      | some _ => .error .typeError
      | none =>
        match path with
        | [] => .ok node
        | tok :: rest =>
          if tokFalsy tok then .ok node
          else
            match lookupChild node tok with
            | .ok child => extract n rest full child
            | .error e => .error e := rfl

theorem extract_mono {n m : Nat} {path : List Tok} {full node v : JSON}
    (hle : n ≤ m) (h : extract n path full node = .ok v) :
    extract m path full node = .ok v := by
  induction n generalizing m path node v with
  | zero => simp [extract] at h
  | succ k ih =>
    obtain ⟨m', rfl⟩ : ∃ m', m = m' + 1 := ⟨m - 1, by omega⟩
    have hk : k ≤ m' := by omega
    rw [extract_succ] at h
    rw [extract_succ]
    split at h
    · exact ih hk h
    · exact h
    · split at h
      · exact h
      · rename_i tok rest
        by_cases hf : tokFalsy tok
        · simp only [hf, eq_self_iff_true, if_true] at h ⊢
          exact h
        · simp only [hf, Bool.false_eq_true, if_false] at h ⊢
          split at h
          · exact ih hk h
          · exact h

theorem extract_det {n m : Nat} {path : List Tok} {full node v w : JSON}
    (h1 : extract n path full node = .ok v) (h2 : extract m path full node = .ok w) :
    v = w := by
  have a1 := extract_mono (Nat.le_add_right n m) h1
  have a2 := extract_mono (Nat.le_add_left m n) h2
  rw [a1] at a2
  exact Except.ok.inj a2

theorem extract_append {n : Nat} {q : List String} {p : List Tok} {full node v : JSON}
    (hq : ∀ s ∈ q, s ≠ "") (hfull : goodRefsJ full = true) (hnode : goodRefsJ node = true)
    (h : extract n (q.map Tok.str ++ p) full node = .ok v) :
    ∃ m d, extract m (q.map Tok.str) full node = .ok d ∧
           extract m p full d = .ok v ∧ goodRefsJ d = true := by
  induction n generalizing q p node v with
  | zero => simp [extract] at h
  | succ k ih =>
    rcases heq : refOf node with _ | rv
    · -- not a reference node
      cases q with
      | nil =>
        simp only [List.map_nil, List.nil_append] at h
        refine ⟨k + 1, node, ?_, ?_, hnode⟩
        · rw [extract_succ, heq]
          rfl
        · exact h
      | cons s q' =>
        have hs : s ≠ "" := hq s (List.mem_cons_self s q')
        have hf : tokFalsy (Tok.str s) = false := by
          simp [tokFalsy, hs]
        simp only [List.map_cons, List.cons_append, extract_succ, heq, hf,
          Bool.false_eq_true, if_false] at h
        rcases hlc : lookupChild node (Tok.str s) with e | child
        · rw [hlc] at h
          exact Except.noConfusion h
        · rw [hlc] at h
          have hchild := goodRefs_child hnode hlc
          obtain ⟨m, d, h1, h2, hd⟩ :=
            ih (fun t ht => hq t (List.mem_cons_of_mem s ht)) hchild h
          refine ⟨m + 1, d, ?_, extract_mono (Nat.le_succ m) h2, hd⟩
          simp only [List.map_cons, extract_succ, heq, hf, Bool.false_eq_true, if_false, hlc]
          exact h1
    · -- reference node
      obtain ⟨r, hrv, hgr⟩ := goodRefs_ref hnode heq
      subst hrv
      rw [extract_succ, heq] at h
      simp only at h
      rw [← List.append_assoc, ← List.map_append] at h
      have htr : ∀ s ∈ refToPath r ++ q, s ≠ "" := by
        intro s hs
        rcases List.mem_append.1 hs with h1 | h2
        · exact goodRef_tokens hgr s h1
        · exact hq s h2
      obtain ⟨m, d, h1, h2, hd⟩ := ih htr hfull h
      refine ⟨m + 1, d, ?_, extract_mono (Nat.le_succ m) h2, hd⟩
      rw [extract_succ, heq]
      rw [List.map_append] at h1
      exact h1

/-- C4 (amended): provided every `$ref` fragment in the document, and the
fragment `r` itself, has no empty reference segment, resolving `p` against
the reference node for `r` agrees with first resolving `r` with an empty
path against the document root and then resolving `p` against the
dereferenced node; and the fragment `"#"` resolves to the whole
document. -/
theorem extract_ref_commutes :
    (∀ (full : JSON) (r : String) (p : List Tok) (n m k : Nat) (v d w : JSON),
        goodRefsJ full = true → goodRef r = true →
        extract n p full (refNode r) = .ok v →
        extract m [] full (refNode r) = .ok d →
        extract k p full d = .ok w → v = w) ∧
    (∀ (full : JSON) (n : Nat), refOf full = none →
        extract (n + 2) [] full (refNode "#") = .ok full) := by
  constructor
  · intro full r p n m k v d w hfull hr hlhs hderef hrhs
    cases n with
    | zero => simp [extract] at hlhs
    | succ n' =>
      have hrefnode : refOf (refNode r) = some (.str r) := rfl
      rw [extract_succ, hrefnode] at hlhs
      simp only at hlhs
      obtain ⟨m0, d0, h1, h2, hd0⟩ := extract_append (goodRef_tokens hr) hfull hfull hlhs
      cases m with
      | zero => simp [extract] at hderef
      | succ m' =>
        rw [extract_succ, hrefnode] at hderef
        simp only at hderef
        rw [List.append_nil] at hderef
        have hdd : d = d0 := extract_det hderef h1
        subst hdd
        exact extract_det h2 hrhs
  · intro full n href
    rw [extract_succ]
    rw [show refOf (refNode "#") = some (JSON.str "#") from rfl]
    simp only
    rw [show (refToPath "#").map Tok.str ++ ([] : List Tok) = [] from rfl]
    rw [extract_succ, href]

/-- Python truthiness of a JSON value (`if not name:`). -/
def pyTruthy : JSON → Bool
  | .null => false
  | .bool b => b
  | .num n => !(n == 0)
  | .str s => !(s == "")
  | .arr xs => !xs.isEmpty
  | .obj fs => !fs.isEmpty

/-- Python `==` on the values that can serve as `dict` keys here; mirrors
`True == 1` and `False == 0`.  Sequences and mappings are unhashable and
never become keys, so they compare unequal here. -/
def pyEq : JSON → JSON → Bool
  | .null, .null => true
  | .bool b, .bool c => b == c
  | .bool b, .num n => (if b then (1 : Int) else 0) == n
  | .num n, .bool b => n == (if b then (1 : Int) else 0)
  | .num n, .num m => n == m
  | .str s, .str t => s == t
  | _, _ => false

theorem pyEq_symm (a b : JSON) : pyEq a b = pyEq b a := by
  cases a <;> cases b <;> simp [pyEq, beq_iff_eq, eq_comm]

/-- Python `str()`/`"{}".format()` rendering of the scalar values that can
appear as candidate names (sequences/mappings would have raised before being
rendered). -/
def pyStr : JSON → String
  | .str s => s
  | .bool true => "True"
  | .bool false => "False"
  | .num n => toString n
  | .null => "None"
  | .arr _ => ""
  | .obj _ => ""

/-- Python `dict` keys must be hashable; a list or dict key raises
`TypeError`. -/
def isUnhashable : JSON → Bool
  | .arr _ => true
  | .obj _ => true
  | _ => false

/-- The candidate name of alternative `idx` (0-based) in
`_get_one_of_alternative_names`: a mapping alternative is dereferenced and
its truthy `title` preferred, with fallback `"Alternative #<idx+1>"`; a
non-mapping alternative gets the fallback directly; `.get` on a
dereferenced non-mapping raises `AttributeError`. -/
def altCandidate (fuel : Nat) (full : JSON) (idx : Nat) (alt : JSON) : Except PyErr JSON :=
  match alt with
  | .obj fields =>
    match extract fuel [] full (.obj fields) with
    | .error e => .error e
    | .ok (.obj dfields) =>
      match lookupField dfields "title" with
      | some t =>
        if pyTruthy t then .ok t
        else .ok (.str ("Alternative #" ++ toString (idx + 1)))
      | none => .ok (.str ("Alternative #" ++ toString (idx + 1)))
    | .ok _ => .error .attributeError
  | _ => .ok (.str ("Alternative #" ++ toString (idx + 1)))

/-- The enumeration loop of `_get_one_of_alternative_names`; `counts` is the
`name_counts` defaultdict, modelled as a function on keys up to Python
equality. -/
def namesGo (fuel : Nat) (full : JSON) : Nat → (JSON → Nat) → List JSON → Except PyErr (List JSON)
  | _, _, [] => .ok []
  | idx, counts, alt :: rest =>
    match altCandidate fuel full idx alt with
    | .error e => .error e
    | .ok cand =>
      if isUnhashable cand then .error .typeError
      else
        match namesGo fuel full (idx + 1)
            (fun c => if pyEq c cand then counts c + 1 else counts c) rest with
        | .error e => .error e
        | .ok names =>
          .ok ((if counts cand = 0 then cand
                else .str (pyStr cand ++ "(" ++ toString (counts cand + 1) ++ ")")) :: names)

/-- `_get_one_of_alternative_names(alternative_schemas, full_schema)`. -/
def getOneOfAlternativeNames (fuel : Nat) (alts : List JSON) (full : JSON) :
    Except PyErr (List JSON) :=
  namesGo fuel full 0 (fun _ => 0) alts

/-- The candidate names of all alternatives in order, before
uniquification. -/
def candList (fuel : Nat) (full : JSON) : Nat → List JSON → Except PyErr (List JSON)
  | _, [] => .ok []
  | idx, alt :: rest =>
    match altCandidate fuel full idx alt with
    | .error e => .error e
    | .ok cand =>
      match candList fuel full (idx + 1) rest with
      | .error e => .error e
      | .ok cs => .ok (cand :: cs)

/-- The display name given to candidate `c` when the candidates rendered
before it were `pre`: unmodified on its first occurrence, and
`"<name>(<k+1>)"` on its k-th repeat (k ≥ 1), occurrences counted by Python
equality. -/
def renderName (pre : List JSON) (c : JSON) : JSON :=
  if (pre.filter (fun d => pyEq d c)).length = 0 then c
  else .str (pyStr c ++ "(" ++ toString ((pre.filter (fun d => pyEq d c)).length + 1) ++ ")")

theorem namesGo_spec {fuel : Nat} {full : JSON} :
    ∀ {alts : List JSON} {idx : Nat} {counts : JSON → Nat} {processed names : List JSON},
      (∀ c, counts c = (processed.filter (fun d => pyEq d c)).length) →
      namesGo fuel full idx counts alts = .ok names →
      ∃ cands, candList fuel full idx alts = .ok cands ∧
        ∀ i, names.get? i =
          (cands.get? i).map (fun c => renderName (processed ++ cands.take i) c) := by
  intro alts
  induction alts with
  | nil =>
    intro idx counts processed names hinv h
    rw [namesGo] at h
    injection h with h'
    subst h'
    exact ⟨[], rfl, fun i => by simp⟩
  | cons alt rest ih =>
    intro idx counts processed names hinv h
    rw [namesGo] at h
    split at h
    · exact Except.noConfusion h
    · rename_i cand hcand
      split at h
      · exact Except.noConfusion h
      · rename_i hhash
        split at h
        · exact Except.noConfusion h
        · rename_i names' hrest
          injection h with h'
          subst h'
          have hinv' : ∀ c,
              (if pyEq c cand then counts c + 1 else counts c) =
                (((processed ++ [cand]).filter (fun d => pyEq d c)).length) := by
            intro c
            have hsym := pyEq_symm c cand
            by_cases hpc : pyEq cand c = true
            · have h2 : pyEq c cand = true := by rw [hsym]; exact hpc
              simp [List.filter_append, List.filter_cons, h2, hpc, hinv c]
            · have hpc' : pyEq cand c = false := by
                cases hb : pyEq cand c
                · rfl
                · exact absurd hb hpc
              have h2 : pyEq c cand = false := by rw [hsym]; exact hpc'
              simp [List.filter_append, List.filter_cons, h2, hpc', hinv c]
          obtain ⟨cands', hc, hspec⟩ := ih hinv' hrest
          refine ⟨cand :: cands', by simp only [candList, hcand, hc], ?_⟩
          intro i
          cases i with
          | zero =>
            simp only [List.get?, List.take_zero, List.append_nil, Option.map_some']
            rw [renderName, ← hinv cand]
          | succ j =>
            simp only [List.get?]
            rw [hspec j]
            simp [List.take_succ_cons, List.append_assoc]

/-- Python `str()` of a path token. -/
def tokStr : Tok → String
  | .str s => s
  | .int i => toString i

/-- `_json_path_to_string`: slash-delimited rendering of a path. -/
def jsonPathToString (path : List Tok) : String :=
  "/" ++ String.intercalate "/" (path.map tokStr)

/-- `_instance_path_to_description`: the domain phrase for an instance
path, built as the space-joined `message_parts`, with the slash-joined
fallback when no part was recognized. -/
def instancePathToDescription (p : List Tok) : String :=
  let messageParts : List String :=
    match p with
    | [] => ["root level of experiment description"]
    | first :: rest =>
      if first = Tok.str "parameters" then
        match rest with
        | [] => ["global parameters section"]
        | pid :: _ =>
          "parameter" ::
            (match pid with
             | .str s => ["\"" ++ s ++ "\""]
             | .int n => ["#" ++ toString (n + 1)])
      else if first = Tok.str "tasks" then
        match rest with
        | [] => ["tasks section"]
        | t1 :: rest2 =>
          ("task plugin \"" ++ tokStr t1 ++ "\"") ::
            (match rest2 with
             | t2 :: _ =>
               if t2 = Tok.str "outputs" then ["outputs"]
               else if t2 = Tok.str "plugin" then ["plugin ID"]
               else []
             | [] => [])
      else if first = Tok.str "graph" then
        match rest with
        | [] => ["graph section"]
        | t1 :: rest2 =>
          ("step \"" ++ tokStr t1 ++ "\"") ::
            (match rest2 with
             | t2 :: _ => if t2 = Tok.str "dependencies" then ["dependencies"] else []
             | [] => [])
      else []
  if messageParts.isEmpty then
    "experiment description location " ++ jsonPathToString p
  else String.intercalate " " messageParts

/-- The section case analysis of the specification for the Domain Locator,
stated with each output phrase written out in full. -/
def specLocate : List Tok → String
  | [] => "root level of experiment description"
  | first :: rest =>
    if first = Tok.str "parameters" then
      match rest with
      | [] => "global parameters section"
      | Tok.str s2 :: _ => "parameter \"" ++ s2 ++ "\""
      | Tok.int n :: _ => "parameter #" ++ toString (n + 1)
    else if first = Tok.str "tasks" then
      match rest with
      | [] => "tasks section"
      | t :: rest2 =>
        match rest2 with
        | t2 :: _ =>
          if t2 = Tok.str "outputs" then "task plugin \"" ++ tokStr t ++ "\" outputs"
          else if t2 = Tok.str "plugin" then "task plugin \"" ++ tokStr t ++ "\" plugin ID"
          else "task plugin \"" ++ tokStr t ++ "\""
        | [] => "task plugin \"" ++ tokStr t ++ "\""
    else if first = Tok.str "graph" then
      match rest with
      | [] => "graph section"
      | t :: rest2 =>
        match rest2 with
        | t2 :: _ =>
          if t2 = Tok.str "dependencies" then "step \"" ++ tokStr t ++ "\" dependencies"
          else "step \"" ++ tokStr t ++ "\""
        | [] => "step \"" ++ tokStr t ++ "\""
    else
      "experiment description location " ++
        ("/" ++ String.intercalate "/" ((first :: rest).map tokStr))

theorem strAppend_assoc (a b c : String) : a ++ b ++ c = a ++ (b ++ c) := by
  rcases a with ⟨la⟩
  rcases b with ⟨lb⟩
  rcases c with ⟨lc⟩
  show String.append (String.append ⟨la⟩ ⟨lb⟩) ⟨lc⟩ = String.append ⟨la⟩ (String.append ⟨lb⟩ ⟨lc⟩)
  rw [String.append, String.append, String.append, String.append]
  exact congrArg String.mk (List.append_assoc la lb lc)

theorem strData_append (a b : String) : (a ++ b).data = a.data ++ b.data := rfl

/-- C7: the Domain Locator is total and equals the section case analysis
of the specification: empty path, "parameters" (with quoted-name or 1-based
numbered parameter), "tasks" (with "outputs"/"plugin ID" suffixes),
"graph" (with "dependencies" suffix), and the slash-joined fallback for
every other shape. -/
theorem locate_eq_specLocate (p : List Tok) : instancePathToDescription p = specLocate p := by
  cases p with
  | nil => rfl
  | cons first rest =>
    cases first with
    | int i => rfl
    | str s =>
      by_cases h1 : s = "parameters"
      · subst h1
        cases rest with
        | nil => rfl
        | cons pid rest2 =>
          cases pid with
          | str s2 => rfl
          | int n => rfl
      · by_cases h2 : s = "tasks"
        · subst h2
          cases rest with
          | nil => rfl
          | cons t1 rest2 =>
            cases rest2 with
            | nil => rfl
            | cons t2 rest3 =>
              by_cases h3 : t2 = Tok.str "outputs"
              · subst h3
                refine congrArg String.mk ?_
                simp only [strData_append, List.append_assoc]
                rfl
              · by_cases h4 : t2 = Tok.str "plugin"
                · subst h4
                  refine congrArg String.mk ?_
                  simp only [strData_append, List.append_assoc]
                  rfl
                · simp [instancePathToDescription, specLocate, h3, h4, String.intercalate, String.intercalate.go]
        · by_cases h3 : s = "graph"
          · subst h3
            cases rest with
            | nil => rfl
            | cons t1 rest2 =>
              cases rest2 with
              | nil => rfl
              | cons t2 rest3 =>
                by_cases h4 : t2 = Tok.str "dependencies"
                · subst h4
                  refine congrArg String.mk ?_
                  simp only [strData_append, List.append_assoc]
                  rfl
                · simp [instancePathToDescription, specLocate, h4, String.intercalate, String.intercalate.go]
          · simp [instancePathToDescription, specLocate, h1, h2, h3, jsonPathToString]

/-- A jsonschema `ValidationError`: validator keyword, absolute instance
path, absolute schema path, the failing instance fragment, the validator's
configured value (for `oneOf`, the ordered list of alternative sub-schemas),
the nested context errors, and the upstream fallback message. -/
inductive VError where
  | mk (validator : String) (absolutePath : List Tok) (absoluteSchemaPath : List Tok)
      (inst : JSON) (validatorValue : List JSON) (context : List VError) (message : String)

def VError.validator : VError → String
  | .mk v _ _ _ _ _ _ => v

def VError.absolutePath : VError → List Tok
  | .mk _ p _ _ _ _ _ => p

def VError.absoluteSchemaPath : VError → List Tok
  | .mk _ _ sp _ _ _ _ => sp

def VError.inst : VError → JSON
  | .mk _ _ _ i _ _ _ => i

def VError.validatorValue : VError → List JSON
  | .mk _ _ _ _ vv _ _ => vv

def VError.context : VError → List VError
  | .mk _ _ _ _ _ ctx _ => ctx

def VError.message : VError → String
  | .mk _ _ _ _ _ _ m => m

/-- The Sub-Validator Probe `_is_valid_for_sub_schema(full, sub, inst)`.
The jsonschema validity check is external to this module, so the composer is
parameterized over an arbitrary probe. -/
def Probe : Type := JSON → JSON → JSON → Bool

/-- `_indent_lines`: prefix every line with four spaces. -/
def indentLines (lines : List String) : List String :=
  lines.map (fun l => "    " ++ l)

/-- The strings of a name list, when every member is a string (Python
`", ".join` raises `TypeError` otherwise). -/
def strsOfNames? : List JSON → Option (List String)
  | [] => some []
  | .str s :: rest => (strsOfNames? rest).map (fun ss => s :: ss)
  | _ :: _ => none

/-- Python `", ".join(names)`. -/
def joinNames (names : List JSON) : Except PyErr String :=
  match strsOfNames? names with
  | some ss => .ok (String.intercalate ", " ss)
  | none => .error .typeError

/-- `_one_of_too_many_alternatives_satisfied_message_lines(error, schema)`:
one line naming all alternatives and the probed satisfied ones. -/
def oneOfTooManyLines (probe : Probe) (fuel : Nat) (e : VError) (schema : JSON) :
    Except PyErr (List String) :=
  match getOneOfAlternativeNames fuel e.validatorValue schema with
  | .error er => .error er
  | .ok altNames =>
    match joinNames altNames with
    | .error er => .error er
    | .ok joined =>
      match joinNames (((altNames.zip e.validatorValue).filter
          (fun pr => probe schema pr.2 e.inst)).map (fun pr => pr.1)) with
      | .error er => .error er
      | .ok sjoined =>
        .ok ["Must be exactly one of: " ++ joined ++
             ".  Content satisfied more than one alternative: " ++ sjoined ++ "."]

/-- One insertion into the `errors_by_alt` defaultdict: the entry whose key
is Python-equal to `k` gets `v` appended, a missing key is appended at the
end (Python dicts preserve insertion order). -/
def groupsInsert (groups : List (JSON × List VError)) (k : JSON) (v : VError) :
    List (JSON × List VError) :=
  if groups.any (fun pr => pyEq pr.1 k) then
    groups.map (fun pr => if pyEq pr.1 k then (pr.1, pr.2 ++ [v]) else pr)
  else groups ++ [(k, [v])]

/-- The grouping loop of
`_one_of_no_alternatives_satisfied_message_lines`: each context error's
schema-path token at the position right after the `oneOf` error's schema
path is read (`IndexError` when the path is too short), asserted to be an
integer, and used to index `altNames` (Python list indexing); the error is
then appended to its alternative's group. -/
def buildGroups (altNames : List JSON) (prefixLen : Nat) :
    List VError → List (JSON × List VError) → Except PyErr (List (JSON × List VError))
  | [], groups => .ok groups
  | ce :: rest, groups =>
    match ce.absoluteSchemaPath.get? prefixLen with
    | none => .error .indexError
    | some (.str _) => .error .assertionError
    | some (.int i) =>
      match pyListGet? altNames i with
      | none => .error .indexError
      | some nm => buildGroups altNames prefixLen rest (groupsInsert groups nm ce)

/-- The per-group sub-messages: for each error of a group, the recursive
explanation, indented. -/
def errsLines (subExplain : VError → Except PyErr (List String)) :
    List VError → Except PyErr (List String)
  | [] => .ok []
  | ce :: rest =>
    match subExplain ce with
    | .error er => .error er
    | .ok ls =>
      match errsLines subExplain rest with
      | .error er => .error er
      | .ok restL => .ok (indentLines ls ++ restL)

/-- The group emission loop: a header line per alternative name followed by
the indented explanations of its errors. -/
def groupLines (subExplain : VError → Except PyErr (List String)) :
    List (JSON × List VError) → Except PyErr (List String)
  | [] => .ok []
  | (nm, errs) :: rest =>
    match errsLines subExplain errs with
    | .error er => .error er
    | .ok subs =>
      match groupLines subExplain rest with
      | .error er => .error er
      | .ok restL =>
        .ok (("Errors associated with alternative \"" ++ pyStr nm ++ "\":") :: subs ++ restL)

/-- `_one_of_no_alternatives_satisfied_message_lines(error, schema)`,
parameterized over the recursive explanation of nested errors. -/
def oneOfNoAlternativesLines (subExplain : VError → Except PyErr (List String))
    (fuel : Nat) (e : VError) (schema : JSON) : Except PyErr (List String) :=
  match getOneOfAlternativeNames fuel e.validatorValue schema with
  | .error er => .error er
  | .ok altNames =>
    match joinNames altNames with
    | .error er => .error er
    | .ok joined =>
      match buildGroups altNames e.absoluteSchemaPath.length e.context [] with
      | .error er => .error er
      | .ok groups =>
        match groupLines subExplain groups with
        | .error er => .error er
        | .ok rest =>
          .ok (("Must be exactly one of: " ++ joined ++
                "; all alternatives failed validation.") :: rest)

/-- `_validation_error_to_message_lines(error, schema)`: location phrase
plus the `what` lines, single-line messages being merged into one line and
multi-line ones indented under a header. -/
def errorToMessageLines (probe : Probe) : Nat → VError → JSON → Except PyErr (List String)
  | 0, _, _ => .error .fuel
  | fuel + 1, e, schema =>
    match
      (if e.validator = "oneOf" then
        if e.context.isEmpty then oneOfTooManyLines probe fuel e schema
        else
          oneOfNoAlternativesLines
            (fun ce => errorToMessageLines probe fuel ce schema) fuel e schema
      else .ok [e.message]) with
    | .error er => .error er
    | .ok whatLines =>
      match whatLines with
      | [l] => .ok ["In " ++ instancePathToDescription e.absolutePath ++ ": " ++ l]
      | _ =>
        .ok (("In " ++ instancePathToDescription e.absolutePath ++ ":")
              :: indentLines whatLines)

/-- `validation_error_to_message(error, schema)`. -/
def validationErrorToMessage (probe : Probe) (fuel : Nat) (e : VError) (schema : JSON) :
    Except PyErr String :=
  match errorToMessageLines probe fuel e schema with
  | .error er => .error er
  | .ok lines => .ok (String.intercalate "\n" lines)

/-- The list comprehension of `validation_errors_to_message`: one message
per error, in input order, stopping at the first raised exception. -/
def messagesAll (probe : Probe) (fuel : Nat) (schema : JSON) :
    List VError → Except PyErr (List String)
  | [] => .ok []
  | e :: rest =>
    match validationErrorToMessage probe fuel e schema with
    | .error er => .error er
    | .ok msg =>
      match messagesAll probe fuel schema rest with
      | .error er => .error er
      | .ok msgs => .ok (msg :: msgs)

/-- `validation_errors_to_message(errors, schema)`. -/
def validationErrorsToMessage (probe : Probe) (fuel : Nat) (errors : List VError)
    (schema : JSON) : Except PyErr String :=
  match messagesAll probe fuel schema errors with
  | .error er => .error er
  | .ok messages => .ok (String.intercalate "\n\n" messages)

theorem strsOfNames?_map_str : ∀ l : List String, strsOfNames? (l.map JSON.str) = some l := by
  intro l
  induction l with
  | nil => rfl
  | cons s rest ih => simp [strsOfNames?, ih]

theorem strsOfNames?_eq_some : ∀ {names : List JSON} {ss : List String},
    strsOfNames? names = some ss → names = ss.map JSON.str := by
  intro names
  induction names with
  | nil =>
    intro ss h
    rw [strsOfNames?] at h
    injection h with h'
    subst h'
    rfl
  | cons n rest ih =>
    intro ss h
    cases n with
    | str s =>
      rw [strsOfNames?] at h
      cases hr : strsOfNames? rest with
      | none => rw [hr] at h; exact Option.noConfusion h
      | some ss' =>
        rw [hr] at h
        simp only [Option.map_some'] at h
        injection h with h'
        subst h'
        simp [ih hr]
    | null => simp [strsOfNames?] at h
    | bool b => simp [strsOfNames?] at h
    | num x => simp [strsOfNames?] at h
    | arr es => simp [strsOfNames?] at h
    | obj fs => simp [strsOfNames?] at h

theorem messagesAll_spec {probe : Probe} {fuel : Nat} {schema : JSON} :
    ∀ {fs : List VError} {msgs : List String},
      messagesAll probe fuel schema fs = .ok msgs →
      msgs.length = fs.length ∧
      ∀ i, (fs.get? i).map (fun f => validationErrorToMessage probe fuel f schema) =
        (msgs.get? i).map Except.ok := by
  intro fs
  induction fs with
  | nil =>
    intro msgs h
    rw [messagesAll] at h
    injection h with h'
    subst h'
    exact ⟨rfl, fun i => by simp⟩
  | cons f rest ih =>
    intro msgs h
    rw [messagesAll] at h
    split at h
    · exact Except.noConfusion h
    · rename_i msg hmsg
      split at h
      · exact Except.noConfusion h
      · rename_i msgs' hrest
        injection h with h'
        subst h'
        obtain ⟨hlen, hspec⟩ := ih hrest
        refine ⟨by simp [hlen], ?_⟩
        intro i
        cases i with
        | zero => simp [hmsg]
        | succ j => simpa using hspec j

theorem satisfied_names_map {probe : Probe} {schema inst : JSON} (ss : List String)
    (vv : List JSON) :
    (((ss.map JSON.str).zip vv).filter (fun pr => probe schema pr.2 inst)).map
        (fun pr => pr.1) =
      (((ss.zip vv).filter (fun pr => probe schema pr.2 inst)).map
        (fun pr => pr.1)).map JSON.str := by
  rw [List.zip_map_left]
  rw [List.filter_map]
  rw [List.map_map, List.map_map]
  have hp : ((fun pr : JSON × JSON => probe schema pr.2 inst) ∘ Prod.map JSON.str id) =
      (fun pr : String × JSON => probe schema pr.2 inst) := by
    funext pr
    cases pr
    rfl
  rw [hp]
  have hf : ((fun pr : JSON × JSON => pr.1) ∘ Prod.map JSON.str id) =
      (JSON.str ∘ (fun pr : String × JSON => pr.1)) := by
    funext pr
    cases pr
    rfl
  rw [hf]

/-- C3: for an exactly-one-of failure with no nested failures, the body is
exactly one line, the concatenation of "Must be exactly one of: <names>"
and ".  Content satisfied more than one alternative: <satisfied names>.",
the satisfied names being exactly those alternatives, in order, that the
probe reports valid (including the empty list when none is). -/
theorem tooMany_spec {probe : Probe} {fuel : Nat} {e : VError} {schema : JSON}
    {lines : List String} (h : oneOfTooManyLines probe fuel e schema = .ok lines) :
    ∃ nameStrs : List String,
      getOneOfAlternativeNames fuel e.validatorValue schema = .ok (nameStrs.map JSON.str) ∧
      lines = ["Must be exactly one of: " ++ String.intercalate ", " nameStrs ++
               ".  Content satisfied more than one alternative: " ++
               String.intercalate ", "
                 (((nameStrs.zip e.validatorValue).filter
                     (fun pr => probe schema pr.2 e.inst)).map (fun pr => pr.1)) ++ "."] := by
  rw [oneOfTooManyLines] at h
  split at h
  · exact Except.noConfusion h
  · rename_i altNames hn
    split at h
    · exact Except.noConfusion h
    · rename_i joined hj
      split at h
      · exact Except.noConfusion h
      · rename_i sjoined hsj
        injection h with h'
        subst h'
        rw [joinNames] at hj
        cases hs : strsOfNames? altNames with
        | none => rw [hs] at hj; exact Except.noConfusion hj
        | some ss =>
          rw [hs] at hj
          injection hj with hj'
          subst hj'
          obtain rfl := strsOfNames?_eq_some hs
          rw [satisfied_names_map ss e.validatorValue, joinNames, strsOfNames?_map_str] at hsj
          injection hsj with hsj'
          subst hsj'
          exact ⟨ss, hn, rfl⟩

/-- The context errors attributed to name `k`, in nested-failure order. -/
def groupFilter (κ : VError → String) (ctx : List VError) (k : String) : List VError :=
  ctx.filter (fun ce => κ ce == k)

/-- The attributed names in first-encounter order. -/
def encounterKeys (κ : VError → String) : List VError → List String
  | [] => []
  | ce :: rest => κ ce :: (encounterKeys κ rest).filter (fun k => !(k == κ ce))

/-- `groupsInsert` restricted to string keys. -/
def strInsert (G : List (String × List VError)) (s : String) (ce : VError) :
    List (String × List VError) :=
  if G.any (fun pr => pr.1 == s) then
    G.map (fun pr => if pr.1 == s then (pr.1, pr.2 ++ [ce]) else pr)
  else G ++ [(s, [ce])]

/-- String-keyed groups viewed as JSON-keyed groups. -/
def embG (G : List (String × List VError)) : List (JSON × List VError) :=
  G.map (fun pr => (JSON.str pr.1, pr.2))

theorem groupsInsert_emb (G : List (String × List VError)) (s : String) (ce : VError) :
    groupsInsert (embG G) (JSON.str s) ce = embG (strInsert G s ce) := by
  have hiff : ((G.map (fun pr => (JSON.str pr.1, pr.2))).any
      (fun pr => pyEq pr.1 (JSON.str s))) = (G.any (fun pr => pr.1 == s)) := by
    induction G with
    | nil => rfl
    | cons a as ih =>
      simp only [List.map_cons, List.any_cons, ih]
      rfl
  rw [groupsInsert, strInsert]
  simp only [embG, hiff]
  by_cases hA : G.any (fun pr => pr.1 == s) = true
  · simp only [hA, if_true]
    rw [List.map_map, List.map_map]
    apply List.map_congr_left
    intro pr _
    by_cases hk : pr.1 == s
    · simp [Function.comp, pyEq, hk]
    · simp [Function.comp, pyEq, hk]
  · have hA2 : (G.any fun pr => pr.1 == s) = false := by
      cases hb : G.any fun pr => pr.1 == s
      · rfl
      · exact absurd hb hA
    simp only [hA2, Bool.false_eq_true, if_false]
    rw [List.map_append]
    rfl

theorem beq_str_comm (a b : String) : (a == b) = (b == a) := by
  by_cases h : a = b
  · subst h
    rfl
  · have h1 : (a == b) = false := Bool.eq_false_iff.mpr (fun hx => h (eq_of_beq hx))
    have h2 : (b == a) = false := Bool.eq_false_iff.mpr (fun hx => h (eq_of_beq hx).symm)
    rw [h1, h2]

theorem strInsert_any (G : List (String × List VError)) (s0 : String) (ce : VError)
    (k : String) :
    ((strInsert G s0 ce).any (fun pr => pr.1 == k)) =
      (G.any (fun pr => pr.1 == k) || (s0 == k)) := by
  rw [strInsert]
  by_cases hA : G.any (fun pr => pr.1 == s0) = true
  · simp only [hA, if_true, List.any_map]
    have h1 : ((fun pr : String × List VError => pr.1 == k) ∘
        (fun pr => if pr.1 == s0 then (pr.1, pr.2 ++ [ce]) else pr)) =
        (fun pr : String × List VError => pr.1 == k) := by
      funext pr
      by_cases hp : pr.1 == s0 <;> simp [Function.comp, hp]
    rw [h1]
    by_cases hk : s0 = k
    · subst hk
      simp [hA]
    · have h2 : (s0 == k) = false := Bool.eq_false_iff.mpr (fun hx => hk (eq_of_beq hx))
      simp [h2]
  · have hA2 : (G.any fun pr => pr.1 == s0) = false := by
      cases hb : G.any fun pr => pr.1 == s0
      · rfl
      · exact absurd hb hA
    simp only [hA2, Bool.false_eq_true, if_false, List.any_append, List.any_cons,
      List.any_nil, Bool.or_false]

theorem strInsert_algebra (G : List (String × List VError)) (κ : VError → String)
    (ce : VError) (rest : List VError) :
    (strInsert G (κ ce) ce).map (fun pr => (pr.1, pr.2 ++ groupFilter κ rest pr.1)) ++
      ((encounterKeys κ rest).filter
        (fun k => !((strInsert G (κ ce) ce).any (fun pr => pr.1 == k)))).map
        (fun k => (k, groupFilter κ rest k)) =
    G.map (fun pr => (pr.1, pr.2 ++ groupFilter κ (ce :: rest) pr.1)) ++
      ((encounterKeys κ (ce :: rest)).filter
        (fun k => !(G.any (fun pr => pr.1 == k)))).map
        (fun k => (k, groupFilter κ (ce :: rest) k)) := by
  have hpred : (fun k => !((strInsert G (κ ce) ce).any (fun pr => pr.1 == k))) =
      (fun k => !(G.any (fun pr => pr.1 == k) || ((κ ce) == k))) := by
    funext k
    rw [strInsert_any]
  have hfilter_pred :
      (encounterKeys κ rest).filter (fun k => !(G.any (fun pr => pr.1 == k) || ((κ ce) == k))) =
      ((encounterKeys κ rest).filter (fun k => !(k == κ ce))).filter
        (fun k => !(G.any (fun pr => pr.1 == k))) := by
    rw [List.filter_filter]
    have hp : (fun k => !(G.any (fun pr => pr.1 == k) || ((κ ce) == k))) =
        (fun k => !(G.any (fun pr => pr.1 == k)) && !(k == κ ce)) := by
      funext k
      rw [Bool.not_or, beq_str_comm (κ ce) k]
    rw [hp]
  rw [hpred, hfilter_pred]
  have hmemT : ∀ k ∈ ((encounterKeys κ rest).filter (fun k => !(k == κ ce))).filter
      (fun k => !(G.any (fun pr => pr.1 == k))), (κ ce == k) = false := by
    intro k hk
    have h1 := (List.mem_filter.mp hk).1
    have h2 := (List.mem_filter.mp h1).2
    rw [beq_str_comm]
    cases hb : (k == κ ce)
    · rfl
    · rw [hb] at h2
      simp at h2
  have hT : (((encounterKeys κ rest).filter (fun k => !(k == κ ce))).filter
      (fun k => !(G.any (fun pr => pr.1 == k)))).map
      (fun k => (k, groupFilter κ (ce :: rest) k)) =
      (((encounterKeys κ rest).filter (fun k => !(k == κ ce))).filter
      (fun k => !(G.any (fun pr => pr.1 == k)))).map
      (fun k => (k, groupFilter κ rest k)) := by
    apply List.map_congr_left
    intro k hk
    simp [groupFilter, List.filter_cons, hmemT k hk]
  by_cases hA : G.any (fun pr => pr.1 == κ ce) = true
  · rw [strInsert]
    simp only [hA, if_true]
    have hmap1 : (G.map (fun pr => if pr.1 == κ ce then (pr.1, pr.2 ++ [ce]) else pr)).map
        (fun pr => (pr.1, pr.2 ++ groupFilter κ rest pr.1)) =
        G.map (fun pr => (pr.1, pr.2 ++ groupFilter κ (ce :: rest) pr.1)) := by
      rw [List.map_map]
      apply List.map_congr_left
      intro pr _
      cases hp : (pr.1 == κ ce) with
      | true =>
        have hp2 : pr.1 = κ ce := eq_of_beq hp
        simp [Function.comp, hp, groupFilter, List.filter_cons, hp2, List.append_assoc]
      | false =>
        have hp2 : (κ ce == pr.1) = false := by rw [beq_str_comm]; exact hp
        simp [Function.comp, hp, groupFilter, List.filter_cons, hp2]
    rw [hmap1]
    simp only [encounterKeys]
    rw [List.filter_cons]
    simp only [hA, Bool.not_true, Bool.false_eq_true, if_false]
    rw [hT]
  · have hA2 : (G.any fun pr => pr.1 == κ ce) = false := by
      cases hb : G.any fun pr => pr.1 == κ ce
      · rfl
      · exact absurd hb hA
    rw [strInsert]
    simp only [hA2, Bool.false_eq_true, if_false]
    rw [List.map_append]
    simp only [encounterKeys]
    rw [List.filter_cons]
    simp only [hA2, Bool.not_false, if_true]
    simp only [List.map_cons]
    have hG : G.map (fun pr => (pr.1, pr.2 ++ groupFilter κ (ce :: rest) pr.1)) =
        G.map (fun pr => (pr.1, pr.2 ++ groupFilter κ rest pr.1)) := by
      apply List.map_congr_left
      intro pr hpr
      have h1 : (pr.1 == κ ce) = false := by
        cases hb : (pr.1 == κ ce)
        · rfl
        · exact absurd hb (List.any_eq_false.mp hA2 pr hpr)
      have h2 : (κ ce == pr.1) = false := by rw [beq_str_comm]; exact h1
      simp [groupFilter, List.filter_cons, h2]
    rw [hG, hT]
    have hmid : groupFilter κ (ce :: rest) (κ ce) = ce :: groupFilter κ rest (κ ce) := by
      simp [groupFilter, List.filter_cons]
    rw [hmid]
    simp [List.append_assoc]

theorem buildGroups_spec {altNames : List JSON} {L : Nat} {κ : VError → String} :
    ∀ {ctx : List VError} {G : List (String × List VError)} {out : List (JSON × List VError)},
      (∀ ce ∈ ctx, ∃ i : Int, ce.absoluteSchemaPath.get? L = some (.int i) ∧
          pyListGet? altNames i = some (JSON.str (κ ce))) →
      buildGroups altNames L ctx (embG G) = .ok out →
      out = embG (G.map (fun pr => (pr.1, pr.2 ++ groupFilter κ ctx pr.1)) ++
        ((encounterKeys κ ctx).filter
          (fun k => !(G.any (fun pr => pr.1 == k)))).map
          (fun k => (k, groupFilter κ ctx k))) := by
  intro ctx
  induction ctx with
  | nil =>
    intro G out hattr h
    rw [buildGroups] at h
    injection h with h'
    subst h'
    simp [encounterKeys, groupFilter, embG]
  | cons ce rest ih =>
    intro G out hattr h
    obtain ⟨i, hget, hname⟩ := hattr ce (List.mem_cons_self _ _)
    rw [buildGroups] at h
    split at h
    · rename_i heq
      rw [hget] at heq
      exact Option.noConfusion heq
    · rename_i s' heq
      rw [hget] at heq
      injection heq with heq2
      exact Tok.noConfusion heq2
    · rename_i i' heq
      rw [hget] at heq
      injection heq with heq2
      injection heq2 with heq3
      subst heq3
      split at h
      · rename_i heq4
        rw [hname] at heq4
        exact Option.noConfusion heq4
      · rename_i nm heq4
        rw [hname] at heq4
        injection heq4 with heq5
        subst heq5
        rw [groupsInsert_emb] at h
        have hrest := ih (fun ce' hm => hattr ce' (List.mem_cons_of_mem _ hm)) h
        rw [hrest]
        exact congrArg embG (strInsert_algebra G κ ce rest)

/-- The lines of a successful run, used to state output shapes. -/
def okLines (x : Except PyErr (List String)) : List String :=
  match x with
  | .ok ls => ls
  | .error _ => []

theorem errsLines_spec {subExplain : VError → Except PyErr (List String)} :
    ∀ {errs : List VError} {out : List String},
      errsLines subExplain errs = .ok out →
      (∀ ce ∈ errs, ∃ ls, subExplain ce = .ok ls) ∧
      out = errs.flatMap (fun ce => indentLines (okLines (subExplain ce))) := by
  intro errs
  induction errs with
  | nil =>
    intro out h
    rw [errsLines] at h
    injection h with h'
    subst h'
    exact ⟨by simp, by simp⟩
  | cons ce rest ih =>
    intro out h
    rw [errsLines] at h
    split at h
    · exact Except.noConfusion h
    · rename_i ls hce
      split at h
      · exact Except.noConfusion h
      · rename_i restL hrest
        injection h with h'
        subst h'
        obtain ⟨hall, hout⟩ := ih hrest
        refine ⟨?_, ?_⟩
        · intro ce' hm
          rcases List.mem_cons.mp hm with rfl | hm'
          · exact ⟨ls, hce⟩
          · exact hall ce' hm'
        · rw [hout]
          simp [okLines, hce]

theorem groupLines_spec {subExplain : VError → Except PyErr (List String)} :
    ∀ {Gs : List (JSON × List VError)} {out : List String},
      groupLines subExplain Gs = .ok out →
      (∀ pr ∈ Gs, ∀ ce ∈ pr.2, ∃ ls, subExplain ce = .ok ls) ∧
      out = Gs.flatMap (fun pr =>
        ("Errors associated with alternative \"" ++ pyStr pr.1 ++ "\":") ::
          pr.2.flatMap (fun ce => indentLines (okLines (subExplain ce)))) := by
  intro Gs
  induction Gs with
  | nil =>
    intro out h
    rw [groupLines] at h
    injection h with h'
    subst h'
    exact ⟨by simp, by simp⟩
  | cons pr rest ih =>
    obtain ⟨nm, errs⟩ := pr
    intro out h
    rw [groupLines] at h
    split at h
    · exact Except.noConfusion h
    · rename_i subs hsubs
      split at h
      · exact Except.noConfusion h
      · rename_i restL hrest
        injection h with h'
        subst h'
        obtain ⟨hall1, hout1⟩ := errsLines_spec hsubs
        obtain ⟨hall2, hout2⟩ := ih hrest
        refine ⟨?_, ?_⟩
        · intro pr' hm
          rcases List.mem_cons.mp hm with rfl | hm'
          · exact hall1
          · exact hall2 pr' hm'
        · rw [hout1, hout2]
          simp

theorem mem_encounterKeys {κ : VError → String} :
    ∀ {ctx : List VError} {ce : VError}, ce ∈ ctx → κ ce ∈ encounterKeys κ ctx := by
  intro ctx
  induction ctx with
  | nil =>
    intro ce h
    cases h
  | cons a rest ih =>
    intro ce h
    rw [encounterKeys]
    rcases List.mem_cons.mp h with rfl | hm
    · exact List.mem_cons_self _ _
    · by_cases hk : κ ce = κ a
      · rw [hk]
        exact List.mem_cons_self _ _
      · apply List.mem_cons_of_mem
        apply List.mem_filter.mpr
        refine ⟨ih hm, ?_⟩
        have hb : (κ ce == κ a) = false :=
          Bool.eq_false_iff.mpr (fun hx => hk (eq_of_beq hx))
        simp [hb]

theorem pyListGet?_ofNat {α : Type} (xs : List α) (n : Nat) :
    pyListGet? xs (Int.ofNat n) = xs.get? n := by
  rw [pyListGet?]
  simp [Int.toNat_ofNat]

/-- C2: for an exactly-one-of failure with nested failures, the body
begins with the all-alternatives-failed line; each nested failure is
attributed to the alternative named by the schema-path token at the
position equal to the outer schema path's length; and for each attributed
name, in first-encounter order, a header line is followed by the recursive
explanations of its nested failures in order, each line indented by exactly
four additional spaces. -/
theorem noAlternatives_spec {subExplain : VError → Except PyErr (List String)}
    {fuel : Nat} {e : VError} {schema : JSON} {out : List String}
    (h : oneOfNoAlternativesLines subExplain fuel e schema = .ok out) :
    ∃ nameStrs : List String,
      getOneOfAlternativeNames fuel e.validatorValue schema = .ok (nameStrs.map JSON.str) ∧
      ∀ idxOf : VError → Nat,
        (∀ ce ∈ e.context,
            ce.absoluteSchemaPath.get? e.absoluteSchemaPath.length =
              some (Tok.int (Int.ofNat (idxOf ce))) ∧ idxOf ce < nameStrs.length) →
        (∀ ce ∈ e.context, ∃ ls, subExplain ce = .ok ls) ∧
        out = ("Must be exactly one of: " ++ String.intercalate ", " nameStrs ++
                "; all alternatives failed validation.") ::
          (encounterKeys (fun ce => (nameStrs.get? (idxOf ce)).getD "") e.context).flatMap
            (fun k => ("Errors associated with alternative \"" ++ k ++ "\":") ::
              (groupFilter (fun ce => (nameStrs.get? (idxOf ce)).getD "")
                  e.context k).flatMap
                (fun ce => indentLines (okLines (subExplain ce)))) := by
  rw [oneOfNoAlternativesLines] at h
  split at h
  · exact Except.noConfusion h
  · rename_i altNames hn
    split at h
    · exact Except.noConfusion h
    · rename_i joined hj
      split at h
      · exact Except.noConfusion h
      · rename_i groups hg
        split at h
        · exact Except.noConfusion h
        · rename_i grest hgl
          injection h with h'
          subst h'
          rw [joinNames] at hj
          cases hs : strsOfNames? altNames with
          | none =>
            rw [hs] at hj
            exact Except.noConfusion hj
          | some ss =>
            rw [hs] at hj
            injection hj with hj'
            subst hj'
            obtain rfl := strsOfNames?_eq_some hs
            refine ⟨ss, hn, ?_⟩
            intro idxOf hattr
            have hattr2 : ∀ ce ∈ e.context, ∃ i : Int,
                ce.absoluteSchemaPath.get? e.absoluteSchemaPath.length = some (.int i) ∧
                pyListGet? (ss.map JSON.str) i =
                  some (JSON.str ((ss.get? (idxOf ce)).getD "")) := by
              intro ce hm
              obtain ⟨hg1, hg2⟩ := hattr ce hm
              refine ⟨Int.ofNat (idxOf ce), hg1, ?_⟩
              rw [pyListGet?_ofNat, List.get?_map]
              cases hz : ss.get? (idxOf ce) with
              | none =>
                have := List.get?_eq_none.mp hz
                omega
              | some s0 =>
                simp [hz]
            have hg2 : buildGroups (ss.map JSON.str) e.absoluteSchemaPath.length
                e.context (embG []) = .ok groups := hg
            have hgroups := buildGroups_spec hattr2 hg2
            simp only [List.map_nil, List.nil_append, List.any_nil, Bool.not_false,
              List.filter_true] at hgroups
            obtain ⟨hall, hout⟩ := groupLines_spec hgl
            constructor
            · intro ce hm
              refine hall (JSON.str ((ss.get? (idxOf ce)).getD ""),
                groupFilter (fun ce => (ss.get? (idxOf ce)).getD "") e.context
                  ((ss.get? (idxOf ce)).getD "")) ?_ ce ?_
              · rw [hgroups, embG, List.map_map]
                refine List.mem_map.mpr ?_
                exact ⟨(ss.get? (idxOf ce)).getD "", mem_encounterKeys hm, rfl⟩
              · exact List.mem_filter.mpr ⟨hm, by simp⟩
            · rw [hout, hgroups, embG, List.map_map, List.flatMap_map]
              simp [Function.comp, pyStr]

/-- C6: the Alternative Namer returns one name per alternative in order:
the candidate of alternative `i` is its dereferenced title when truthy and
otherwise the 1-based fallback (also for non-mapping alternatives), the
first occurrence of a candidate is used unmodified, and the k-th repeat is
rendered `"<name>(<k+1>)"`, occurrence counts taken over the earlier
candidates. -/
theorem alternative_names_characterization {fuel : Nat} {alts : List JSON} {full : JSON}
    {names : List JSON} (h : getOneOfAlternativeNames fuel alts full = .ok names) :
    ∃ cands, candList fuel full 0 alts = .ok cands ∧
      ∀ i, names.get? i = (cands.get? i).map (fun c => renderName (cands.take i) c) := by
  have hinv0 : ∀ c : JSON,
      (fun _ : JSON => 0) c = (([] : List JSON).filter (fun d => pyEq d c)).length :=
    fun _ => rfl
  obtain ⟨cands, hc, hs⟩ := namesGo_spec hinv0 h
  refine ⟨cands, hc, fun i => ?_⟩
  have := hs i
  simpa using this

def altTitled (t : String) : JSON :=
  .obj [("title", .str t)]

/-- C6 witness: titles `["A", "A", "B"]` produce names `["A", "A(2)", "B"]`
and satisfy the characterization. -/
theorem alternative_names_characterization_witness :
    getOneOfAlternativeNames 2 [altTitled "A", altTitled "A", altTitled "B"]
        (JSON.obj []) = .ok [JSON.str "A", JSON.str "A(2)", JSON.str "B"] ∧
    ∃ cands, candList 2 (JSON.obj []) 0 [altTitled "A", altTitled "A", altTitled "B"] =
        .ok cands ∧
      ∀ i, [JSON.str "A", JSON.str "A(2)", JSON.str "B"].get? i =
        (cands.get? i).map (fun c => renderName (cands.take i) c) :=
  ⟨rfl, alternative_names_characterization rfl⟩

def docC1 : JSON := .obj [("a", .arr [.num 10, .num 20])]

/-- C1: with path `["a", 0]` the resolver returns the sequence found at
`"a"` itself instead of consuming the integer token `0` and recursing (the
truthiness check treats `0`, like an empty-string token, as an exhausted
path), while the nonzero index `1` is consumed and traversed. -/
theorem extract_stops_at_falsy_token :
    extract 9 [Tok.str "a", Tok.int 0] docC1 docC1 = .ok (.arr [.num 10, .num 20]) ∧
    extract 9 [Tok.str "a", Tok.int 1] docC1 docC1 = .ok (.num 20) ∧
    extract 9 [Tok.str "a", Tok.str ""] docC1 docC1 = .ok (.arr [.num 10, .num 20]) ∧
    JSON.arr [.num 10, .num 20] ≠ JSON.num 10 :=
  ⟨rfl, rfl, rfl, by simp⟩

/-- C5: on titles `["A", "A(2)", "A"]` the Alternative Namer yields
`["A", "A(2)", "A(2)"]`: the collision suffix can itself collide with a
literal title, so the display names of one call are not always pairwise
distinct. -/
theorem alternative_names_duplicate :
    getOneOfAlternativeNames 2 [altTitled "A", altTitled "A(2)", altTitled "A"]
        (JSON.obj []) = .ok [JSON.str "A", JSON.str "A(2)", JSON.str "A(2)"] ∧
    [JSON.str "A", JSON.str "A(2)", JSON.str "A(2)"].get? 1 =
      [JSON.str "A", JSON.str "A(2)", JSON.str "A(2)"].get? 2 :=
  ⟨rfl, rfl⟩

def docC9 : JSON := .obj [("a", .arr [])]

/-- C9: a missing mapping key or an out-of-range nonzero index fails with a
lookup error (`KeyError`/`IndexError`) which propagates through the public
entry point as an error value, but the out-of-range index `0` at an empty
sequence is treated as an exhausted path and returns the current node
instead of failing. -/
theorem extract_missing_step_errors :
    extract 9 [Tok.str "b"] docC9 docC9 = .error .keyError ∧
    extract 9 [Tok.str "a", Tok.int 1] docC9 docC9 = .error .indexError ∧
    extract 9 [Tok.str "a", Tok.int 0] docC9 docC9 = .ok (.arr []) ∧
    validationErrorToMessage (fun _ _ _ => false) 9
      (VError.mk "oneOf" [] [] .null [JSON.obj [("$ref", .str "#/missing")]] [] "m")
      docC9 = .error .keyError :=
  ⟨rfl, rfl, rfl, rfl⟩

def docC4 : JSON := .obj [("a", refNode "#/"), ("x", .num 5)]

/-- C4 counterexample: against a document containing the fragment `"#/"`,
resolving `["x"]` against the reference node for `"#/a"` yields the whole
document, while dereferencing `"#/a"` first (which also yields the whole
document) and then resolving `["x"]` yields the number stored at `"x"`:
the two resolution orders disagree. -/
theorem extract_predereference_counterexample :
    extract 9 [Tok.str "x"] docC4 (refNode "#/a") = .ok docC4 ∧
    extract 9 [] docC4 (refNode "#/a") = .ok docC4 ∧
    extract 9 [Tok.str "x"] docC4 docC4 = .ok (.num 5) ∧
    docC4 ≠ JSON.num 5 :=
  ⟨rfl, rfl, rfl, by simp [docC4]⟩

def docC4w : JSON := .obj [("defs", .obj [("T", .obj [("title", .str "X")])])]

/-- C4 witness: a well-formed reference for which both resolution orders
agree on the extracted sub-schema. -/
theorem extract_ref_commutes_witness :
    goodRefsJ docC4w = true ∧ goodRef "#/defs/T" = true ∧
    extract 9 [Tok.str "title"] docC4w (refNode "#/defs/T") = .ok (.str "X") ∧
    extract 9 [] docC4w (refNode "#/defs/T") = .ok (.obj [("title", .str "X")]) ∧
    extract 9 [Tok.str "title"] docC4w (.obj [("title", .str "X")]) = .ok (.str "X") ∧
    JSON.str "X" = JSON.str "X" :=
  ⟨by simp [docC4w, goodRefsJ, goodRefsFields, goodRefsList, refValOk, lookupField, goodRef],
   rfl, rfl, rfl, rfl,
   extract_ref_commutes.1 docC4w "#/defs/T" [Tok.str "title"] 9 9 9
     (JSON.str "X") (JSON.obj [("title", JSON.str "X")]) (JSON.str "X")
     (by simp [docC4w, goodRefsJ, goodRefsFields, goodRefsList, refValOk, lookupField,
       goodRef])
     rfl rfl rfl rfl⟩

/-- C8: the single-failure entry point joins the composer's lines with one
newline; the multi-failure entry point maps the single-failure entry point
over the failures in input order and joins the results with a blank line
(two newlines); the empty sequence yields the empty string and a
one-element sequence yields exactly the single-failure result. -/
theorem entry_points_spec (probe : Probe) (fuel : Nat) (schema : JSON) :
    validationErrorsToMessage probe fuel [] schema = .ok "" ∧
    (∀ f, validationErrorsToMessage probe fuel [f] schema =
        validationErrorToMessage probe fuel f schema) ∧
    (∀ f lines, errorToMessageLines probe fuel f schema = .ok lines →
        validationErrorToMessage probe fuel f schema =
          .ok (String.intercalate "\n" lines)) ∧
    (∀ fs msgs, messagesAll probe fuel schema fs = .ok msgs →
        validationErrorsToMessage probe fuel fs schema =
          .ok (String.intercalate "\n\n" msgs) ∧
        msgs.length = fs.length ∧
        ∀ i, (fs.get? i).map (fun f => validationErrorToMessage probe fuel f schema) =
          (msgs.get? i).map Except.ok) := by
  refine ⟨rfl, ?_, ?_, ?_⟩
  · intro f
    rw [validationErrorsToMessage, messagesAll]
    cases hm : validationErrorToMessage probe fuel f schema with
    | error er => rfl
    | ok m => rfl
  · intro f lines h
    rw [validationErrorToMessage, h]
  · intro fs msgs h
    exact ⟨by rw [validationErrorsToMessage, h], messagesAll_spec h⟩

def probeNone : Probe := fun _ _ _ => false

def genericF : VError := VError.mk "type" [] [] .null [] [] "msg"

/-- C8 witness: the entry points evaluated on a generic failure. -/
theorem entry_points_spec_witness :
    validationErrorsToMessage probeNone 1 [] (JSON.obj []) = .ok "" ∧
    validationErrorToMessage probeNone 1 genericF (JSON.obj []) =
      .ok "In root level of experiment description: msg" ∧
    (validationErrorsToMessage probeNone 1 [genericF, genericF] (JSON.obj []) =
        .ok ("In root level of experiment description: msg" ++ "\n\n" ++
          "In root level of experiment description: msg") ∧
      ([("In root level of experiment description: msg" : String),
        "In root level of experiment description: msg"].length =
          [genericF, genericF].length) ∧
      ∀ i, ([genericF, genericF].get? i).map
          (fun f => validationErrorToMessage probeNone 1 f (JSON.obj [])) =
        (([("In root level of experiment description: msg" : String),
           "In root level of experiment description: msg"].get? i)).map Except.ok) :=
  ⟨(entry_points_spec probeNone 1 (JSON.obj [])).1,
   (entry_points_spec probeNone 1 (JSON.obj [])).2.2.1 genericF
     ["In root level of experiment description: msg"] rfl,
   (entry_points_spec probeNone 1 (JSON.obj [])).2.2.2 [genericF, genericF]
     ["In root level of experiment description: msg",
      "In root level of experiment description: msg"] rfl⟩

def eTooMany : VError := VError.mk "oneOf" [] [] .null [altTitled "X", altTitled "Y"] [] "m"

/-- C3 witness: two alternatives named `X` and `Y` with a probe that
reports none satisfied still produce the one-line message with an empty
satisfied list. -/
theorem tooMany_spec_witness :
    ∃ nameStrs : List String,
      getOneOfAlternativeNames 5 eTooMany.validatorValue (JSON.obj []) =
        .ok (nameStrs.map JSON.str) ∧
      ["Must be exactly one of: X, Y.  Content satisfied more than one alternative: ."] =
        ["Must be exactly one of: " ++ String.intercalate ", " nameStrs ++
         ".  Content satisfied more than one alternative: " ++
         String.intercalate ", "
           (((nameStrs.zip eTooMany.validatorValue).filter
               (fun pr => probeNone (JSON.obj []) pr.2 eTooMany.inst)).map
             (fun pr => pr.1)) ++ "."] :=
  have h : oneOfTooManyLines probeNone 5 eTooMany (JSON.obj []) =
      .ok ["Must be exactly one of: X, Y.  Content satisfied more than one alternative: ."] :=
    rfl
  tooMany_spec h

def ceNested : VError := VError.mk "type" [] [Tok.int 1] .null [] [] "nested"

def eNoAlt : VError :=
  VError.mk "oneOf" [] [] .null [altTitled "X", altTitled "Y"] [ceNested] "m"

/-- C2 witness: one nested failure attributed to alternative index 1 yields
the all-alternatives-failed header, the alternative-`Y` header, and the
nested explanation indented by four spaces. -/
theorem noAlternatives_spec_witness :
    (oneOfNoAlternativesLines (fun _ => .ok ["sub"]) 5 eNoAlt (JSON.obj []) =
      .ok ["Must be exactly one of: X, Y; all alternatives failed validation.",
           "Errors associated with alternative \"Y\":", "    sub"]) ∧
    ∃ nameStrs : List String,
      getOneOfAlternativeNames 5 eNoAlt.validatorValue (JSON.obj []) =
        .ok (nameStrs.map JSON.str) ∧
      ∀ idxOf : VError → Nat,
        (∀ ce ∈ eNoAlt.context,
            ce.absoluteSchemaPath.get? eNoAlt.absoluteSchemaPath.length =
              some (Tok.int (Int.ofNat (idxOf ce))) ∧ idxOf ce < nameStrs.length) →
        (∀ ce ∈ eNoAlt.context, ∃ ls, (fun _ => (.ok ["sub"] : Except PyErr (List String))) ce = .ok ls) ∧
        ["Must be exactly one of: X, Y; all alternatives failed validation.",
         "Errors associated with alternative \"Y\":", "    sub"] =
          ("Must be exactly one of: " ++ String.intercalate ", " nameStrs ++
            "; all alternatives failed validation.") ::
          (encounterKeys (fun ce => (nameStrs.get? (idxOf ce)).getD "") eNoAlt.context).flatMap
            (fun k => ("Errors associated with alternative \"" ++ k ++ "\":") ::
              (groupFilter (fun ce => (nameStrs.get? (idxOf ce)).getD "")
                  eNoAlt.context k).flatMap
                (fun ce => indentLines (okLines ((fun _ =>
                  (.ok ["sub"] : Except PyErr (List String))) ce)))) :=
  have h : oneOfNoAlternativesLines (fun _ => .ok ["sub"]) 5 eNoAlt (JSON.obj []) =
      .ok ["Must be exactly one of: X, Y; all alternatives failed validation.",
           "Errors associated with alternative \"Y\":", "    sub"] := rfl
  ⟨rfl, noAlternatives_spec h⟩
